import Mathlib

/-!
# Formal model of the nanobox service-setup saga

A shallow embedding of `src/processor/service/setup.go` (package `service`):
the provisioning saga `Process` with its compensation ("clean") machinery,
the construction function `serviceSetupFunc`, and the environment-variable
projection `addEnvVars`.  External collaborators (docker client, ip_control,
provider network layer, persistence store, random-string generator) are
modelled by an oracle `World` record that fixes the result of each external
call for one saga run; every external call a run performs is recorded in a
trace so that "zero external calls" style properties are statable.

The IP pool (`util/ip_control`) is not part of the sources; it is modelled
from the spec in the `IpPool` section below.
-/

namespace NanoboxModel

/-! ## Modelling of the Go `strings` stdlib functions used by setup.go

`strings.ToUpper` (restricted to ASCII, which is all the saga feeds it) and
`strings.Replace(s, ".", "_", -1)` (single-character pattern, hence a
character-wise map), plus `strings.Join(l, " ")` via `String.intercalate`. -/

/-- Model of Go `strings.ToUpper` (ASCII range, character-wise). -/
def strUpper (s : String) : String := ⟨s.data.map Char.toUpper⟩

/-- Model of Go `strings.Replace(s, ".", "_", -1)`: the pattern is the single
character `.`, so the replacement is a character-wise map. -/
def strReplaceDot (s : String) : String :=
  ⟨s.data.map (fun c => if c = '.' then '_' else c)⟩

/-! ## The environment-variable table (Go `map[string]string`)

Modelled as an association list without duplicate keys: assignment
(`setKey`) overwrites an existing binding in place or appends a fresh one,
`lookupEnv` finds the first binding. -/

abbrev EnvV := List (String × String)

/-- Go map lookup `m[k]` (as an `Option`; Go would yield `""` on a miss). -/
def lookupEnv (m : EnvV) (k : String) : Option String :=
  match m with
  | [] => none
  | (k', v) :: rest => if k = k' then some v else lookupEnv rest k

/-- Does the table bind `k`? -/
def hasKey (m : EnvV) (k : String) : Bool := (lookupEnv m k).isSome

/-- Go map assignment `m[k] = v`: overwrite an existing binding in place,
or append a fresh one. -/
def setKey (m : EnvV) (k v : String) : EnvV :=
  if hasKey m k then
    m.map (fun p => if p.1 = k then (k, v) else p)
  else
    m ++ [(k, v)]

/-! ## Data model -/

/-- One entry of `Plan.Users` (`models` package, fields used by setup.go). -/
structure User where
  username : String
  password : String
deriving DecidableEq, Repr

/-- The parsed plan: `{ users: [{username, password}], default_user }`. -/
structure PlanData where
  users : List User
  defaultUser : String
deriving DecidableEq, Repr

/-- The persisted `models.Service` record (fields used by setup.go).  The Go
zero value has every string empty and an empty plan. -/
structure Service where
  id : String := ""
  name : String := ""
  externalIP : String := ""
  internalIP : String := ""
  state : String := ""
  serviceType : String := ""
  plan : PlanData := ⟨[], ""⟩
deriving DecidableEq, Repr

/-! ## Environment projection (`addEnvVars` in setup.go)

The pure computation performed by `addEnvVars` between its `data.Get` and its
`data.Put`: from the service record and the pre-existing table, produce the
updated table.  `envUserStep` is the body of the Go
`for _, user := range self.service.Plan.Users` loop, which accumulates the
username list and the table. -/

/-- The password key `{prefix}_{username-upper}_PASS` built in the loop. -/
def passKey (pfx : String) (u : User) : String :=
  pfx ++ "_" ++ strUpper u.username ++ "_PASS"

/-- Body of the user loop of `addEnvVars`. -/
def envUserStep (pfx du : String) (acc : List String × EnvV) (user : User) :
    List String × EnvV :=
  let users := acc.1 ++ [user.username]
  let e := setKey acc.2 (passKey pfx user) user.password
  let e :=
    if user.username = du then
      setKey (setKey e (pfx ++ "_USER") user.username) (pfx ++ "_PASS") user.password
    else e
  (users, e)

/-- The pure part of `addEnvVars`: prefix derivation, the `_HOST` binding,
the user loop, and the conditional `_USERS` binding. -/
def computeEnvVars (svc : Service) (envVars : EnvV) : EnvV :=
  let pfx := strUpper (strReplaceDot svc.name)
  let envVars := setKey envVars (pfx ++ "_HOST") svc.internalIP
  let acc := svc.plan.users.foldl (envUserStep pfx svc.plan.defaultUser)
    (([] : List String), envVars)
  if acc.1.length > 0 then
    setKey acc.2 (pfx ++ "_USERS") (String.intercalate " " acc.1)
  else acc.2

/-! ## Invocation context (`processor.ProcessControl`)

Only the parts setup.go reads: the `Meta map[string]string`.  A Go string map
yields `""` for a missing key, so `metaGet` defaults to `""`. -/

abbrev GoErr := String

structure ProcessControl where
  meta : List (String × String)
deriving DecidableEq, Repr

/-- Go `control.Meta[k]` (missing key yields `""`). -/
def metaGet (c : ProcessControl) (k : String) : String :=
  match lookupEnv c.meta k with
  | some v => v
  | none => ""

/-- Go `control.Meta[k] = v`. -/
def metaSet (c : ProcessControl) (k v : String) : ProcessControl :=
  ⟨setKey c.meta k v⟩

/-- A docker container handle (`dockType.ContainerJSON`, only `.ID` is used). -/
structure Container where
  id : String
deriving DecidableEq, Repr

/-- A reserved IP address; setup.go only ever uses its `String()` form. -/
abbrev IP := String

/-- The compensating actions setup.go pushes onto `cleanFuncs`, as data:
`ip_control.ReturnIP`, `docker.ContainerRemove`, `provider.RemoveIP`,
`provider.RemoveNat`. -/
inductive CleanAction where
  | returnIP (addr : IP)
  | containerRemove (id : String)
  | removeIP (addr : String)
  | removeNat (globalAddr localAddr : String)
deriving DecidableEq, Repr

/-- The external calls a saga run can perform, recorded as a trace.
Display/progress output is a best-effort sink and is not traced. -/
inductive Call where
  | dataGet (bucket key : String)
  | imagePull (image : String)
  | reserveLocal
  | reserveGlobal
  | createContainer (name image addr : String)
  | addIP (addr : String)
  | addNat (globalAddr localAddr : String)
  | exec (containerId cmd : String)
  | putService (bucket key : String) (svc : Service)
  | putEnv (bucket key : String) (env : EnvV)
  | clean (a : CleanAction)
deriving DecidableEq, Repr

/-- Oracle fixing the result of every external call for one saga run.
Each field corresponds to one call site in setup.go:
* `dataGetService`: result of `data.Get(AppName, name, &service)`; `none`
  models both a missing record and a store error, which the caller ignores
  and which leave the out-parameter unmodified;
* `parsePlan`: `json.Unmarshal` of the plan output into the plan schema;
* `randomString i`: the i-th string `util.RandomString(10)` hands out;
* `envTable`: contents after `data.Get(AppName+"_meta", "env", &envVars)`
  (empty on a miss);
* `runClean`: outcome of each compensating action (`none` = success). -/
structure World where
  appName : String
  dataGetService : Option Service
  imagePull : Except GoErr Unit
  reserveLocal : Except GoErr IP
  reserveGlobal : Except GoErr IP
  createContainer : Except GoErr Container
  addIP : Except GoErr Unit
  addNat : Except GoErr Unit
  execPlan : Except GoErr String
  parsePlan : String → Except GoErr PlanData
  randomString : Nat → String
  putService : Except GoErr Unit
  envTable : EnvV
  putEnv : Except GoErr Unit
  runClean : CleanAction → Option GoErr

/-- The mutable fields of the Go `serviceSetup` struct. -/
structure ServiceSetup where
  control : ProcessControl
  service : Service := {}
  localIP : IP := ""
  globalIP : IP := ""
  container : Container := ⟨""⟩
  plan : String := ""
  fail : Bool := false
  cleanFuncs : List CleanAction := []
deriving Repr

/-- A step outcome: the returned error (if any), the updated receiver, and
the external calls made. -/
abbrev StepRes := Option GoErr × ServiceSetup × List Call

/-! ## The constructor `serviceSetupFunc` -/

/-- `serviceSetupFunc`: validates that `name` and `image` are present,
defaults `label` to `name`, and builds the saga value.  It performs no
external call, hence the constantly empty trace component. -/
def serviceSetupFunc (control : ProcessControl) :
    Except GoErr ServiceSetup × List Call :=
  if metaGet control "name" = "" ∨ metaGet control "image" = "" then
    (.error "missing image or name", [])
  else
    let control :=
      if metaGet control "label" = "" then
        metaSet control "label" (metaGet control "name")
      else control
    (.ok { control := control, cleanFuncs := [] }, [])

/-! ## The saga steps -/

/-- `loadService`: `data.Get` with its error deliberately ignored, then the
state defaulted to `"initialized"` when empty.  Never returns an error. -/
def loadService (w : World) (s : ServiceSetup) : StepRes :=
  let svc :=
    match w.dataGetService with
    | some v => v
    | none => s.service
  let svc := if svc.state = "" then { svc with state := "initialized" } else svc
  (none, { s with service := svc },
    [Call.dataGet w.appName (metaGet s.control "name")])

/-- `downloadImage`: `docker.ImagePull` on the requested image. -/
def downloadImage (w : World) (s : ServiceSetup) : StepRes :=
  match w.imagePull with
  | .error e => (some e, s, [Call.imagePull (metaGet s.control "image")])
  | .ok _ => (none, s, [Call.imagePull (metaGet s.control "image")])

/-- `reserveIps`: reserve a local then a global address, pushing a
`ReturnIP` compensation immediately after each successful acquisition. -/
def reserveIps (w : World) (s : ServiceSetup) : StepRes :=
  match w.reserveLocal with
  | .error e => (some e, s, [Call.reserveLocal])
  | .ok ipl =>
    let s := { s with localIP := ipl,
                      cleanFuncs := s.cleanFuncs ++ [CleanAction.returnIP ipl] }
    match w.reserveGlobal with
    | .error e => (some e, s, [Call.reserveLocal, Call.reserveGlobal])
    | .ok ipg =>
      (none,
        { s with globalIP := ipg,
                 cleanFuncs := s.cleanFuncs ++ [CleanAction.returnIP ipg] },
        [Call.reserveLocal, Call.reserveGlobal])

/-- `launchContainer`: `docker.CreateContainer` with the deterministic name
`nanobox-{app}-{name}`, pushing a `ContainerRemove` compensation. -/
def launchContainer (w : World) (s : ServiceSetup) : StepRes :=
  let cname := "nanobox-" ++ w.appName ++ "-" ++ metaGet s.control "name"
  let tr := [Call.createContainer cname (metaGet s.control "image") s.localIP]
  match w.createContainer with
  | .error e => (some e, s, tr)
  | .ok container =>
    (none,
      { s with container := container,
               cleanFuncs := s.cleanFuncs ++ [CleanAction.containerRemove container.id] },
      tr)

/-- `attachNetwork`: `provider.AddIP` then `provider.AddNat`, each pushing
its own compensation on success. -/
def attachNetwork (w : World) (s : ServiceSetup) : StepRes :=
  match w.addIP with
  | .error e => (some e, s, [Call.addIP s.globalIP])
  | .ok _ =>
    let s := { s with cleanFuncs := s.cleanFuncs ++ [CleanAction.removeIP s.globalIP] }
    match w.addNat with
    | .error e => (some e, s, [Call.addIP s.globalIP, Call.addNat s.globalIP s.localIP])
    | .ok _ =>
      (none,
        { s with cleanFuncs := s.cleanFuncs ++ [CleanAction.removeNat s.globalIP s.localIP] },
        [Call.addIP s.globalIP, Call.addNat s.globalIP s.localIP])

/-- `planService`: `util.Exec(container.ID, "plan", payload, writer)`; the
JSON payload is assembled by the external boxfile library and is not
modelled.  On success the raw plan output is stored. -/
def planService (w : World) (s : ServiceSetup) : StepRes :=
  match w.execPlan with
  | .error e => (some e, s, [Call.exec s.container.id "plan"])
  | .ok p => (none, { s with plan := p }, [Call.exec s.container.id "plan"])

/-- `persistService`: fill in the service fields, `json.Unmarshal` the plan
(failure wrapped with the `persistService:` stage prefix and no store
write), substitute a fresh random password for every user, then `data.Put`
the record. -/
def persistService (w : World) (s : ServiceSetup) : StepRes :=
  let svc := { s.service with
    id := s.container.id
    name := metaGet s.control "name"
    externalIP := s.globalIP
    internalIP := s.localIP
    state := "planned"
    serviceType := "data" }
  match w.parsePlan s.plan with
  | .error e =>
    (some ("persistService:" ++ e), { s with service := svc }, [])
  | .ok pd =>
    let users := pd.users.enum.map fun p => { p.2 with password := w.randomString p.1 }
    let svc := { svc with plan := { pd with users := users } }
    let s := { s with service := svc }
    match w.putService with
    | .error e =>
      (some e, s, [Call.putService w.appName (metaGet s.control "name") svc])
    | .ok _ =>
      (none, s, [Call.putService w.appName (metaGet s.control "name") svc])

/-- `addEnvVars`: fetch the env table (`data.Get`, error ignored), extend it
via `computeEnvVars`, and `data.Put` it back. -/
def addEnvVarsStep (w : World) (s : ServiceSetup) : StepRes :=
  let result := computeEnvVars s.service w.envTable
  let tr := [Call.dataGet (w.appName ++ "_meta") "env",
             Call.putEnv (w.appName ++ "_meta") "env" result]
  match w.putEnv with
  | .error e => (some e, s, tr)
  | .ok _ => (none, s, tr)

/-! ## The saga body and `Process` -/

/-- Mark the saga as failed when a step errored (`self.fail = true`). -/
def markFail (r : StepRes) : StepRes :=
  match r with
  | (some e, s, t) => (some e, { s with fail := true }, t)
  | (none, s, t) => (none, s, t)

/-- Sequence two step outcomes: short-circuit on an error, otherwise run the
next step (marking failure) and accumulate the traces. -/
def stepSeq (r : StepRes) (next : ServiceSetup → StepRes) : StepRes :=
  match r with
  | (some e, s, t) => (some e, s, t)
  | (none, s, t) =>
    let r2 := markFail (next s)
    (r2.1, r2.2.1, t ++ r2.2.2)

/-- The part of the `Process` pipeline that runs when the loaded service is
still in state `"initialized"`: the six remaining steps in source order. -/
def pipelineAfterLoad (w : World) (s1 : ServiceSetup) : StepRes :=
  stepSeq (stepSeq (stepSeq (stepSeq (stepSeq (stepSeq
    (markFail (downloadImage w s1))
    (fun s => reserveIps w s))
    (fun s => launchContainer w s))
    (fun s => attachNetwork w s))
    (fun s => planService w s))
    (fun s => persistService w s))
    (fun s => addEnvVarsStep w s)

/-- The step pipeline of `Process`, without the deferred clean: load, the
already-progressed short-circuit, then the six remaining steps. -/
def processBody (w : World) (s : ServiceSetup) : StepRes :=
  match markFail (loadService w s) with
  | (some e, s1, t) => (some e, s1, t)
  | (none, s1, t) =>
    if s1.service.state ≠ "initialized" then (none, s1, t)
    else
      let r := pipelineAfterLoad w s1
      (r.1, r.2.1, t ++ r.2.2)

/-- The `clean` loop over an action list: run each registered compensation
in order, returning at the first error; also reports which actions were
actually executed. -/
def runCleanList (w : World) : List CleanAction → Option GoErr × List CleanAction
  | [] => (none, [])
  | a :: rest =>
    match w.runClean a with
    | some e => (some e, [a])
    | none =>
      let r := runCleanList w rest
      (r.1, a :: r.2)

/-- `clean`: short-circuits unless the saga failed, otherwise runs the
registered compensations in registration order. -/
def cleanRun (w : World) (s : ServiceSetup) : Option GoErr × List CleanAction :=
  if s.fail then runCleanList w s.cleanFuncs else (none, [])

/-- The observable outcome of one `Process` run.  `ret` is the value Go's
`Process` returns.  `cleanErr` is the error produced by the deferred
`self.clean()` call: because `Process` has an unnamed return value, Go
discards this error — it is exposed here so its (non-)propagation can be
reasoned about. -/
structure ProcOut where
  ret : Option GoErr
  cleanErr : Option GoErr
  state : ServiceSetup
  trace : List Call
deriving Repr

/-- `Process`: run the body, then the deferred `self.clean()`.  The clean
pass's calls are appended to the trace; its error is dropped from `ret`
(unnamed Go return value) and surfaced only as `cleanErr`. -/
def Process (w : World) (s0 : ServiceSetup) : ProcOut :=
  let r := processBody w s0
  let c := cleanRun w r.2.1
  { ret := r.1
    cleanErr := c.1
    state := r.2.1
    trace := r.2.2 ++ c.2.map Call.clean }

/-- The saga value `Process` starts from, as produced by a successful
`serviceSetupFunc` (label already defaulted inside `control`). -/
def initialSetup (c : ProcessControl) : ServiceSetup := { control := c }

/-! ## The IP resource pool

Modelled from the spec: the `util/ip_control` package
(`ReserveLocal`/`ReserveGlobal`/`ReturnIP`) is not among the sources.  Per
the spec, reservation is a single atomic "take one free slot" operation on a
pool of disjoint address slots, returning an address not currently held or a
ResourceExhaustion error, and returning an address not currently held is a
contract violation that fails.  Concurrency is modelled by arbitrary
interleavings, i.e. arbitrary sequences of these atomic operations, each
tagged with the holder performing it. -/

abbrev Addr := Nat

/-- A pool: the currently free slots and the currently held slots together
with the holder of each. -/
structure Pool where
  free : List Addr
  held : List (Addr × Nat)
deriving Repr

/-- Atomic reservation: take one free slot or fail with ResourceExhaustion. -/
def reserveAddr (p : Pool) (holder : Nat) : Except GoErr (Addr × Pool) :=
  match p.free with
  | [] => .error "ResourceExhaustion"
  | a :: rest => .ok (a, { free := rest, held := p.held ++ [(a, holder)] })

/-- Atomic return: release a held slot; returning an address not currently
held fails rather than silently succeeding. -/
def returnAddr (p : Pool) (a : Addr) : Except GoErr Pool :=
  if a ∈ p.held.map Prod.fst then
    .ok { free := a :: p.free, held := p.held.filter (fun q => q.1 != a) }
  else .error "not held"

/-- One atomic pool operation of some concurrent client. -/
inductive PoolOp where
  | reserve (holder : Nat)
  | ret (a : Addr)

/-- Run a sequence of atomic operations (an interleaving of the concurrent
clients); failed operations leave the pool unchanged. -/
def runOps (p : Pool) : List PoolOp → Pool
  | [] => p
  | .reserve h :: rest =>
    match reserveAddr p h with
    | .ok r => runOps r.2 rest
    | .error _ => runOps p rest
  | .ret a :: rest =>
    match returnAddr p a with
    | .ok p2 => runOps p2 rest
    | .error _ => runOps p rest

/-- Pool well-formedness: no duplicate free slots, no address held twice,
and no address both free and held. -/
def poolWf (p : Pool) : Prop :=
  p.free.Nodup ∧ (p.held.map Prod.fst).Nodup ∧
    ∀ a ∈ p.free, a ∉ p.held.map Prod.fst

/-- Total number of slots of a pool. -/
def poolSize (p : Pool) : Nat := p.free.length + p.held.length

/-! ## Concrete worlds used to evaluate the model on explicit inputs -/

/-- A request context carrying a name, image and boxfile but no label. -/
def ctrl0 : ProcessControl :=
  ⟨[("name", "data.db"), ("image", "img1"), ("boxfile", "")]⟩

/-- A world in which every external call succeeds and the plan declares the
users alice (default) and bob. -/
def wOk : World where
  appName := "app"
  dataGetService := none
  imagePull := .ok ()
  reserveLocal := .ok "192.168.0.2"
  reserveGlobal := .ok "10.0.0.2"
  createContainer := .ok ⟨"cid1"⟩
  addIP := .ok ()
  addNat := .ok ()
  execPlan := .ok "planjson"
  parsePlan := fun s =>
    if s = "planjson" then .ok ⟨[⟨"alice", ""⟩, ⟨"bob", ""⟩], "alice"⟩
    else .error "unexpected payload"
  randomString := fun i => if i = 0 then "pw0" else "pw1"
  putService := .ok ()
  envTable := []
  putEnv := .ok ()
  runClean := fun _ => none

/-- As `wOk` but the global IP reservation fails. -/
def wGlobFail : World := { wOk with reserveGlobal := .error "globboom" }

/-- As `wGlobFail` but the local address's return-compensation also fails:
the scenario of a failed rollback. -/
def wCompFail : World :=
  { wGlobFail with
    runClean := fun a =>
      if a = CleanAction.returnIP "192.168.0.2" then some "compboom" else none }

/-- As `wOk` but the NAT attachment (second network sub-step) fails: by then
four compensations have been registered. -/
def wNatFail : World := { wOk with addNat := .error "natboom" }

/-- As `wNatFail` but the container-remove compensation fails, so cleanup
stops before the bridge-IP removal. -/
def wNatFailCompStops : World :=
  { wNatFail with
    runClean := fun a =>
      if a = CleanAction.containerRemove "cid1" then some "rmboom" else none }

/-- As `wOk` but the plan output does not parse. -/
def wParseFail : World :=
  { wOk with parsePlan := fun _ => .error "invalid json" }

/-- A world whose stored service record has already progressed to
`"planned"`. -/
def wDone : World :=
  { wOk with dataGetService := some { state := "planned" } }

/-! ## Trace classifiers and result predicates -/

/-- Is this call the persistence write of the Service record? -/
def isPutService : Call → Bool
  | .putService _ _ _ => true
  | _ => false

/-- Is this call the execution of a compensating action? -/
def isCleanCall : Call → Bool
  | .clean _ => true
  | _ => false

/-- Did an external call succeed? -/
def exOkB {α : Type} : Except GoErr α → Bool
  | .ok _ => true
  | .error _ => false

/-- The environment projection as the spec sentences describe it, as a
key-to-value function: `_HOST` is the internal address; `_USER`/`_PASS`
mirror the declared user matching `default_user` when there is one;
`_USERS` is the space-joined username list iff at least one user exists;
each user contributes its `{prefix}_{username-upper}_PASS` key; nothing
else is bound.  Compared against `computeEnvVars` in the C6 theorem. -/
def specEnvLookup (name ip : String) (users : List User) (du : String)
    (k : String) : Option String :=
  let pfx := strUpper (strReplaceDot name)
  if k = pfx ++ "_HOST" then some ip
  else if k = pfx ++ "_USER" then
    (users.find? (fun u => u.username == du)).map (fun u => u.username)
  else if k = pfx ++ "_PASS" then
    (users.find? (fun u => u.username == du)).map (fun u => u.password)
  else if k = pfx ++ "_USERS" then
    if users.isEmpty then none
    else some (String.intercalate " " (users.map (fun u => u.username)))
  else (users.find? (fun u => k == passKey pfx u)).map (fun u => u.password)

/-! ## String key lemmas -/

lemma strCancelLeft {p a b : String} (h : p ++ a = p ++ b) : a = b := by
  have hd := congrArg String.data h
  simp only [String.data_append] at hd
  exact String.ext (List.append_cancel_left hd)

lemma strCancelRight {p a b : String} (h : a ++ p = b ++ p) : a = b := by
  have hd := congrArg String.data h
  simp only [String.data_append] at hd
  exact String.ext (List.append_cancel_right hd)

lemma suffix_ne {pfx a b : String} (h : a ≠ b) : pfx ++ a ≠ pfx ++ b :=
  fun he => h (strCancelLeft he)

lemma key_len_ne {pfx a b : String} (h : a.length ≠ b.length) :
    pfx ++ a ≠ pfx ++ b := by
  intro he
  exact h (by have := congrArg String.length he;
              simp only [String.length_append] at this; omega)

lemma passKey_reassoc (pfx x : String) :
    pfx ++ "_" ++ x ++ "_PASS" = pfx ++ ("_" ++ x ++ "_PASS") := by
  simp [String.append_assoc]

lemma passSuffix_length (x : String) :
    ("_" ++ x ++ "_PASS").length = 1 + x.length + 5 := by
  simp only [String.length_append]
  have h1 : ("_" : String).length = 1 := rfl
  have h2 : ("_PASS" : String).length = 5 := rfl
  omega

lemma str_eq_empty_of_length {x : String} (hx : x.length = 0) : x = "" := by
  have hd : x.data = [] := List.length_eq_zero.mp hx
  exact String.ext hd

lemma passKey_ne_host (pfx x : String) :
    pfx ++ "_" ++ x ++ "_PASS" ≠ pfx ++ "_HOST" := by
  rw [passKey_reassoc]
  apply key_len_ne
  rw [passSuffix_length]
  have h2 : ("_HOST" : String).length = 5 := rfl
  omega

lemma passKey_ne_user (pfx x : String) :
    pfx ++ "_" ++ x ++ "_PASS" ≠ pfx ++ "_USER" := by
  rw [passKey_reassoc]
  apply key_len_ne
  rw [passSuffix_length]
  have h2 : ("_USER" : String).length = 5 := rfl
  omega

lemma passKey_ne_pass (pfx x : String) :
    pfx ++ "_" ++ x ++ "_PASS" ≠ pfx ++ "_PASS" := by
  rw [passKey_reassoc]
  apply key_len_ne
  rw [passSuffix_length]
  have h2 : ("_PASS" : String).length = 5 := rfl
  omega

lemma passKey_ne_users (pfx x : String) :
    pfx ++ "_" ++ x ++ "_PASS" ≠ pfx ++ "_USERS" := by
  rw [passKey_reassoc]
  intro he
  have hsuf : "_" ++ x ++ "_PASS" = "_USERS" := strCancelLeft he
  have hlen := congrArg String.length hsuf
  rw [passSuffix_length] at hlen
  have h2 : ("_USERS" : String).length = 6 := rfl
  rw [h2] at hlen
  have hx : x = "" := str_eq_empty_of_length (by omega)
  rw [hx] at hsuf
  exact absurd hsuf (by decide)

lemma passKey_injective (pfx x y : String)
    (h : pfx ++ "_" ++ x ++ "_PASS" = pfx ++ "_" ++ y ++ "_PASS") : x = y := by
  rw [passKey_reassoc, passKey_reassoc] at h
  have h1 : "_" ++ x ++ "_PASS" = "_" ++ y ++ "_PASS" := strCancelLeft h
  rw [String.append_assoc, String.append_assoc] at h1
  have h2 : x ++ "_PASS" = y ++ "_PASS" := strCancelLeft h1
  exact strCancelRight h2

/-! ## Table lemmas: Go map assignment versus lookup -/

lemma lookup_map_overwrite_hit (m : EnvV) (k v : String)
    (hm : hasKey m k = true) :
    lookupEnv (m.map (fun p => if p.1 = k then (k, v) else p)) k = some v := by
  induction m with
  | nil => simp [hasKey, lookupEnv] at hm
  | cons a m ih =>
    by_cases hak : a.1 = k
    · rw [List.map_cons, if_pos hak]
      simp [lookupEnv]
    · have hka : ¬ k = a.1 := fun he => hak he.symm
      have hm2 : hasKey m k = true := by
        simpa [hasKey, lookupEnv, if_neg hka] using hm
      rw [List.map_cons, if_neg hak]
      simp only [lookupEnv, if_neg hka]
      exact ih hm2

lemma lookup_map_overwrite_miss (m : EnvV) (k v k' : String) (hk : k' ≠ k) :
    lookupEnv (m.map (fun p => if p.1 = k then (k, v) else p)) k'
      = lookupEnv m k' := by
  induction m with
  | nil => rfl
  | cons a m ih =>
    by_cases hak : a.1 = k
    · have hka2 : ¬ k' = a.1 := fun he => hk (he.trans hak)
      rw [List.map_cons, if_pos hak]
      simp only [lookupEnv, if_neg hk, if_neg hka2]
      exact ih
    · rw [List.map_cons, if_neg hak]
      simp only [lookupEnv]
      by_cases he : k' = a.1
      · simp [if_pos he]
      · simp only [if_neg he]
        exact ih

lemma lookup_append_single_hit (m : EnvV) (k v : String)
    (hm : hasKey m k = false) :
    lookupEnv (m ++ [(k, v)]) k = some v := by
  induction m with
  | nil => simp [lookupEnv]
  | cons a m ih =>
    by_cases hka : k = a.1
    · simp [hasKey, lookupEnv, if_pos hka] at hm
    · have hm2 : hasKey m k = false := by
        simpa [hasKey, lookupEnv, if_neg hka] using hm
      simp only [List.cons_append, lookupEnv, if_neg hka]
      exact ih hm2

lemma lookup_append_single_miss (m : EnvV) (k v k' : String) (hk : k' ≠ k) :
    lookupEnv (m ++ [(k, v)]) k' = lookupEnv m k' := by
  induction m with
  | nil => simp [lookupEnv, hk]
  | cons a m ih =>
    simp only [List.cons_append, lookupEnv]
    by_cases he : k' = a.1
    · simp [if_pos he]
    · simp only [if_neg he]
      exact ih

/-- Go map semantics: after `m[k] = v`, looking up `k` yields `v` and every
other key is unchanged. -/
lemma lookup_setKey (m : EnvV) (k v k' : String) :
    lookupEnv (setKey m k v) k' = if k' = k then some v else lookupEnv m k' := by
  unfold setKey
  by_cases hm : hasKey m k = true
  · rw [if_pos hm]
    by_cases hk : k' = k
    · rw [if_pos hk, hk]
      exact lookup_map_overwrite_hit m k v hm
    · rw [if_neg hk]
      exact lookup_map_overwrite_miss m k v k' hk
  · have hm' : hasKey m k = false := by simpa using hm
    rw [if_neg (by simp [hm'])]
    by_cases hk : k' = k
    · rw [if_pos hk, hk]
      exact lookup_append_single_hit m k v hm'
    · rw [if_neg hk]
      exact lookup_append_single_miss m k v k' hk

lemma lookup_setKey_self (m : EnvV) (k v : String) :
    lookupEnv (setKey m k v) k = some v := by
  rw [lookup_setKey, if_pos rfl]

lemma lookup_setKey_ne (m : EnvV) (k v k' : String) (h : k' ≠ k) :
    lookupEnv (setKey m k v) k' = lookupEnv m k' := by
  rw [lookup_setKey, if_neg h]

/-! ## List helpers -/

lemma getLast?_cons_eq (a : α) (l : List α) :
    (a :: l).getLast? = match l.getLast? with
      | none => some a
      | some b => some b := by
  cases l with
  | nil => rfl
  | cons b l =>
    rw [List.getLast?_cons_cons]
    cases hgl : (b :: l).getLast? with
    | none => simp [List.getLast?_eq_none_iff] at hgl
    | some c => rfl

lemma mem_of_getLast?_eq_some {l : List α} {b : α} (h : l.getLast? = some b) :
    b ∈ l := by
  obtain ⟨hne, he⟩ := List.mem_getLast?_eq_getLast (l := l) (x := b) h
  exact he ▸ List.getLast_mem hne

/-- When at most one element satisfies the predicate, the last match is the
first match. -/
lemma filter_getLast?_eq_find? (l : List α) (p : α → Bool)
    (h : ∀ a ∈ l, ∀ b ∈ l, p a = true → p b = true → a = b) :
    (l.filter p).getLast? = l.find? p := by
  induction l with
  | nil => rfl
  | cons a l ih =>
    by_cases hpa : p a = true
    · rw [List.filter_cons_of_pos hpa, List.find?_cons_of_pos _ hpa,
        getLast?_cons_eq]
      cases hgl : (l.filter p).getLast? with
      | none => rfl
      | some b =>
        have hbmem : b ∈ l.filter p := mem_of_getLast?_eq_some hgl
        have hbl : b ∈ l := (List.mem_filter.mp hbmem).1
        have hpb : p b = true := (List.mem_filter.mp hbmem).2
        have : a = b := h a (List.mem_cons_self a l) b (List.mem_cons_of_mem a hbl) hpa hpb
        rw [this]
    · have hpa' : ¬ p a = true := hpa
      rw [List.filter_cons_of_neg (by simpa using hpa'),
        List.find?_cons_of_neg _ hpa']
      exact ih (fun x hx y hy hpx hpy =>
        h x (List.mem_cons_of_mem a hx) y (List.mem_cons_of_mem a hy) hpx hpy)

/-! ## Characterizing the `addEnvVars` user loop -/

lemma user_ne_passKey (pfx : String) (u : User) :
    pfx ++ "_USER" ≠ passKey pfx u :=
  Ne.symm (passKey_ne_user pfx (strUpper u.username))

lemma pass_ne_passKey (pfx : String) (u : User) :
    pfx ++ "_PASS" ≠ passKey pfx u :=
  Ne.symm (passKey_ne_pass pfx (strUpper u.username))

lemma host_ne_passKey (pfx : String) (u : User) :
    pfx ++ "_HOST" ≠ passKey pfx u :=
  Ne.symm (passKey_ne_host pfx (strUpper u.username))

lemma users_ne_passKey (pfx : String) (u : User) :
    pfx ++ "_USERS" ≠ passKey pfx u :=
  Ne.symm (passKey_ne_users pfx (strUpper u.username))

/-- The accumulated username list is the usernames in plan order. -/
lemma envFold_fst (pfx du : String) (users : List User)
    (acc : List String × EnvV) :
    (users.foldl (envUserStep pfx du) acc).1
      = acc.1 ++ users.map (fun u => u.username) := by
  induction users generalizing acc with
  | nil => simp
  | cons u us ih =>
    rw [List.foldl_cons, ih]
    simp [envUserStep, List.append_assoc]

/-- Lookup after the user loop, at any key other than `{prefix}_USER` and
`{prefix}_PASS`: the last user whose password key is `k` wins; keys not
written fall through to the accumulator. -/
lemma envFold_lookup_other (pfx du k : String) (users : List User)
    (acc : List String × EnvV)
    (hU : k ≠ pfx ++ "_USER") (hP : k ≠ pfx ++ "_PASS") :
    lookupEnv (users.foldl (envUserStep pfx du) acc).2 k
      = match (users.filter (fun u => k == passKey pfx u)).getLast? with
        | some u => some u.password
        | none => lookupEnv acc.2 k := by
  induction users generalizing acc with
  | nil => rfl
  | cons u us ih =>
    rw [List.foldl_cons, ih]
    have hstep : lookupEnv (envUserStep pfx du acc u).2 k
        = if k = passKey pfx u then some u.password else lookupEnv acc.2 k := by
      unfold envUserStep
      by_cases hdu : u.username = du
      · simp only [if_pos hdu]
        rw [lookup_setKey_ne _ _ _ _ hP, lookup_setKey_ne _ _ _ _ hU,
          lookup_setKey]
      · simp only [if_neg hdu]
        rw [lookup_setKey]
    by_cases hpk : k = passKey pfx u
    · have hfc : (u :: us).filter (fun x => k == passKey pfx x)
          = u :: us.filter (fun x => k == passKey pfx x) := by
        simp [List.filter_cons, hpk]
      rw [hfc, getLast?_cons_eq]
      cases hgl : (us.filter (fun x => k == passKey pfx x)).getLast? with
      | none => simp only [hstep, if_pos hpk]
      | some b => rfl
    · have hfc : (u :: us).filter (fun x => k == passKey pfx x)
          = us.filter (fun x => k == passKey pfx x) := by
        simp [List.filter_cons, hpk]
      rw [hfc]
      cases hgl : (us.filter (fun x => k == passKey pfx x)).getLast? with
      | none => simp only [hstep, if_neg hpk]
      | some b => rfl

/-- Lookup of `{prefix}_USER` after the user loop: the last user whose
username equals the default user wins. -/
lemma envFold_lookup_user (pfx du : String) (users : List User)
    (acc : List String × EnvV) :
    lookupEnv (users.foldl (envUserStep pfx du) acc).2 (pfx ++ "_USER")
      = match (users.filter (fun u => u.username == du)).getLast? with
        | some u => some u.username
        | none => lookupEnv acc.2 (pfx ++ "_USER") := by
  induction users generalizing acc with
  | nil => rfl
  | cons u us ih =>
    rw [List.foldl_cons, ih]
    have hstep : lookupEnv (envUserStep pfx du acc u).2 (pfx ++ "_USER")
        = if u.username = du then some u.username
          else lookupEnv acc.2 (pfx ++ "_USER") := by
      unfold envUserStep
      by_cases hdu : u.username = du
      · simp only [if_pos hdu]
        rw [lookup_setKey_ne _ _ _ _ (suffix_ne (by decide)),
          lookup_setKey_self]
      · simp only [if_neg hdu]
        rw [lookup_setKey_ne _ _ _ _ (user_ne_passKey pfx u)]
    by_cases hdu : u.username = du
    · have hfc : (u :: us).filter (fun x => x.username == du)
          = u :: us.filter (fun x => x.username == du) := by
        simp [List.filter_cons, hdu]
      rw [hfc, getLast?_cons_eq]
      cases hgl : (us.filter (fun x => x.username == du)).getLast? with
      | none => simp only [hstep, if_pos hdu]
      | some b => rfl
    · have hfc : (u :: us).filter (fun x => x.username == du)
          = us.filter (fun x => x.username == du) := by
        simp [List.filter_cons, hdu]
      rw [hfc]
      cases hgl : (us.filter (fun x => x.username == du)).getLast? with
      | none => simp only [hstep, if_neg hdu]
      | some b => rfl

/-- Lookup of `{prefix}_PASS` after the user loop: the last user whose
username equals the default user wins (with that user's password). -/
lemma envFold_lookup_pass (pfx du : String) (users : List User)
    (acc : List String × EnvV) :
    lookupEnv (users.foldl (envUserStep pfx du) acc).2 (pfx ++ "_PASS")
      = match (users.filter (fun u => u.username == du)).getLast? with
        | some u => some u.password
        | none => lookupEnv acc.2 (pfx ++ "_PASS") := by
  induction users generalizing acc with
  | nil => rfl
  | cons u us ih =>
    rw [List.foldl_cons, ih]
    have hstep : lookupEnv (envUserStep pfx du acc u).2 (pfx ++ "_PASS")
        = if u.username = du then some u.password
          else lookupEnv acc.2 (pfx ++ "_PASS") := by
      unfold envUserStep
      by_cases hdu : u.username = du
      · simp only [if_pos hdu]
        rw [lookup_setKey_self]
      · simp only [if_neg hdu]
        rw [lookup_setKey_ne _ _ _ _ (pass_ne_passKey pfx u)]
    by_cases hdu : u.username = du
    · have hfc : (u :: us).filter (fun x => x.username == du)
          = u :: us.filter (fun x => x.username == du) := by
        simp [List.filter_cons, hdu]
      rw [hfc, getLast?_cons_eq]
      cases hgl : (us.filter (fun x => x.username == du)).getLast? with
      | none => simp only [hstep, if_pos hdu]
      | some b => rfl
    · have hfc : (u :: us).filter (fun x => x.username == du)
          = us.filter (fun x => x.username == du) := by
        simp [List.filter_cons, hdu]
      rw [hfc]
      cases hgl : (us.filter (fun x => x.username == du)).getLast? with
      | none => simp only [hstep, if_neg hdu]
      | some b => rfl

/-! ## Claim theorems -/

/-- C6: environment projection is a deterministic function of the service
name and plan.  With prefix = uppercase(service name) with dots replaced by
underscores, starting from an empty table it binds exactly:
`{prefix}_HOST` = internal address; `{prefix}_{username-upper}_PASS` for
every declared user; `{prefix}_USER`/`{prefix}_PASS` mirroring the default
user when one is declared among the users; and, iff at least one user
exists, `{prefix}_USERS` = the usernames space-joined in plan order; with an
empty users list only the `_HOST` key is bound.  Stated as: lookup in the
computed table coincides, at every key, with the spec-side description
`specEnvLookup` (usernames are assumed distinct after uppercasing, which is
what makes the per-user keys and the default-user match unambiguous). -/
theorem addEnvVars_matches_spec (name ip du : String) (users : List User)
    (hnd : (users.map (fun u => strUpper u.username)).Nodup) (k : String) :
    lookupEnv (computeEnvVars
        { name := name, internalIP := ip, plan := ⟨users, du⟩ } []) k
      = specEnvLookup name ip users du k := by
  have hres : computeEnvVars
      { name := name, internalIP := ip, plan := ⟨users, du⟩ } ([] : EnvV)
      = (if (users.foldl (envUserStep (strUpper (strReplaceDot name)) du)
              ([], setKey [] (strUpper (strReplaceDot name) ++ "_HOST") ip)).1.length > 0
         then setKey
            (users.foldl (envUserStep (strUpper (strReplaceDot name)) du)
              ([], setKey [] (strUpper (strReplaceDot name) ++ "_HOST") ip)).2
            (strUpper (strReplaceDot name) ++ "_USERS")
            (String.intercalate " "
              (users.foldl (envUserStep (strUpper (strReplaceDot name)) du)
                ([], setKey [] (strUpper (strReplaceDot name) ++ "_HOST") ip)).1)
         else (users.foldl (envUserStep (strUpper (strReplaceDot name)) du)
              ([], setKey [] (strUpper (strReplaceDot name) ++ "_HOST") ip)).2) := rfl
  have hfst := envFold_fst (strUpper (strReplaceDot name)) du users
    ([], setKey [] (strUpper (strReplaceDot name) ++ "_HOST") ip)
  rw [List.nil_append] at hfst
  -- uniqueness of the default-user match and of each password key
  have hq1 : ∀ a ∈ users, ∀ b ∈ users,
      (a.username == du) = true → (b.username == du) = true → a = b := by
    intro a ha b hb hpa hpb
    have h1 : a.username = du := by simpa using hpa
    have h2 : b.username = du := by simpa using hpb
    exact List.inj_on_of_nodup_map hnd ha hb
      (congrArg strUpper (h1.trans h2.symm))
  have hq2 : ∀ a ∈ users, ∀ b ∈ users,
      (k == passKey (strUpper (strReplaceDot name)) a) = true →
      (k == passKey (strUpper (strReplaceDot name)) b) = true → a = b := by
    intro a ha b hb hpa hpb
    have h1 : k = passKey (strUpper (strReplaceDot name)) a := by simpa using hpa
    have h2 : k = passKey (strUpper (strReplaceDot name)) b := by simpa using hpb
    exact List.inj_on_of_nodup_map hnd ha hb
      (passKey_injective _ _ _ (h1.symm.trans h2))
  by_cases husers : users = []
  case pos =>
    subst husers
    rw [hres]
    simp only [List.foldl_nil, List.length_nil, gt_iff_lt, Nat.lt_irrefl,
      if_false]
    by_cases hk1 : k = strUpper (strReplaceDot name) ++ "_HOST"
    · rw [hk1, lookup_setKey_self]
      simp [specEnvLookup]
    · rw [lookup_setKey_ne _ _ _ _ hk1]
      simp only [specEnvLookup, lookupEnv, if_neg hk1]
      split
      · simp
      · split
        · simp
        · split
          · simp
          · simp
  case neg =>
    have hne : users ≠ [] := husers
    have hlen : (users.foldl (envUserStep (strUpper (strReplaceDot name)) du)
        ([], setKey [] (strUpper (strReplaceDot name) ++ "_HOST") ip)).1.length > 0 := by
      rw [hfst, List.length_map]
      exact List.length_pos.mpr hne
    rw [hres, if_pos hlen, hfst]
    by_cases hk1 : k = strUpper (strReplaceDot name) ++ "_HOST"
    · rw [hk1, lookup_setKey_ne _ _ _ _ (suffix_ne (by decide)),
        envFold_lookup_other _ _ _ _ _ (suffix_ne (by decide)) (suffix_ne (by decide))]
      have hfe : users.filter
          (fun x => (strUpper (strReplaceDot name) ++ "_HOST")
            == passKey (strUpper (strReplaceDot name)) x) = [] := by
        apply List.filter_eq_nil_iff.mpr
        intro a _
        simp [host_ne_passKey (strUpper (strReplaceDot name)) a]
      rw [hfe]
      simp only [List.getLast?_nil, lookup_setKey_self]
      simp [specEnvLookup]
    · by_cases hk2 : k = strUpper (strReplaceDot name) ++ "_USER"
      · rw [hk2, lookup_setKey_ne _ _ _ _ (suffix_ne (by decide)),
          envFold_lookup_user]
        rw [filter_getLast?_eq_find? users _ hq1]
        have hspec : specEnvLookup name ip users du k
            = (users.find? (fun x => x.username == du)).map (fun u => u.username) := by
          simp only [specEnvLookup]
          rw [if_neg (hk2 ▸ hk1 : ¬ k = strUpper (strReplaceDot name) ++ "_HOST"),
            if_pos hk2]
        rw [hk2] at hspec
        rw [hspec]
        cases hf : users.find? (fun x => x.username == du) with
        | none =>
          rw [lookup_setKey_ne _ _ _ _ (suffix_ne (by decide))]
          simp [lookupEnv]
        | some w => simp
      · by_cases hk3 : k = strUpper (strReplaceDot name) ++ "_PASS"
        · rw [hk3, lookup_setKey_ne _ _ _ _ (suffix_ne (by decide)),
            envFold_lookup_pass]
          rw [filter_getLast?_eq_find? users _ hq1]
          have hspec : specEnvLookup name ip users du k
              = (users.find? (fun x => x.username == du)).map (fun u => u.password) := by
            simp only [specEnvLookup]
            rw [if_neg (hk3 ▸ hk1 : ¬ k = strUpper (strReplaceDot name) ++ "_HOST"),
              if_neg (hk3 ▸ hk2 : ¬ k = strUpper (strReplaceDot name) ++ "_USER"),
              if_pos hk3]
          rw [hk3] at hspec
          rw [hspec]
          cases hf : users.find? (fun x => x.username == du) with
          | none =>
            rw [lookup_setKey_ne _ _ _ _ (suffix_ne (by decide))]
            simp [lookupEnv]
          | some w => simp
        · by_cases hk4 : k = strUpper (strReplaceDot name) ++ "_USERS"
          · rw [hk4, lookup_setKey_self]
            have hspec : specEnvLookup name ip users du k
                = some (String.intercalate " " (users.map (fun u => u.username))) := by
              simp only [specEnvLookup]
              rw [if_neg (hk4 ▸ hk1 : ¬ k = strUpper (strReplaceDot name) ++ "_HOST"),
                if_neg (hk4 ▸ hk2 : ¬ k = strUpper (strReplaceDot name) ++ "_USER"),
                if_neg (hk4 ▸ hk3 : ¬ k = strUpper (strReplaceDot name) ++ "_PASS"),
                if_pos hk4, if_neg (by simpa [List.isEmpty_iff] using hne)]
            rw [hk4] at hspec
            rw [hspec]
          · rw [lookup_setKey_ne _ _ _ _ hk4,
              envFold_lookup_other _ _ _ _ _ hk2 hk3,
              filter_getLast?_eq_find? users _ hq2]
            have hspec : specEnvLookup name ip users du k
                = (users.find? (fun x =>
                    k == passKey (strUpper (strReplaceDot name)) x)).map
                    (fun u => u.password) := by
              simp only [specEnvLookup]
              rw [if_neg hk1, if_neg hk2, if_neg hk3, if_neg hk4]
            rw [hspec]
            cases hf : users.find?
                (fun x => k == passKey (strUpper (strReplaceDot name)) x) with
            | none =>
              rw [lookup_setKey_ne _ _ _ _ hk1]
              simp [lookupEnv]
            | some w => simp

/-- Witness for C6: the spec's own example — service `data.db`, users
alice (default) and bob — evaluated at the `DATA_DB_USER` key. -/
theorem addEnvVars_matches_spec_witness :
    (([⟨"alice", "p1"⟩, ⟨"bob", "p2"⟩] : List User).map
        (fun u => strUpper u.username)).Nodup ∧
    lookupEnv (computeEnvVars
        { name := "data.db", internalIP := "1.2.3.4",
          plan := ⟨[⟨"alice", "p1"⟩, ⟨"bob", "p2"⟩], "alice"⟩ } [])
        "DATA_DB_USER"
      = specEnvLookup "data.db" "1.2.3.4"
          [⟨"alice", "p1"⟩, ⟨"bob", "p2"⟩] "alice" "DATA_DB_USER" :=
  ⟨by decide,
   addEnvVars_matches_spec "data.db" "1.2.3.4" "alice"
     [⟨"alice", "p1"⟩, ⟨"bob", "p2"⟩] (by decide) "DATA_DB_USER"⟩

/-- C10: the `{prefix}_USER` and `{prefix}_PASS` keys are bound iff some
declared user's username equals the plan's `default_user` (so a non-empty
`default_user` matching no declared user produces neither key), and with
duplicate matching usernames the last matching user's credentials win:
both lookups equal the last element of the matching-users filter. -/
theorem default_user_keys_last_match (name ip du : String) (users : List User) :
    lookupEnv (computeEnvVars
        { name := name, internalIP := ip, plan := ⟨users, du⟩ } [])
        (strUpper (strReplaceDot name) ++ "_USER")
      = ((users.filter (fun x => x.username == du)).getLast?).map
          (fun u => u.username)
    ∧ lookupEnv (computeEnvVars
        { name := name, internalIP := ip, plan := ⟨users, du⟩ } [])
        (strUpper (strReplaceDot name) ++ "_PASS")
      = ((users.filter (fun x => x.username == du)).getLast?).map
          (fun u => u.password)
    ∧ (lookupEnv (computeEnvVars
        { name := name, internalIP := ip, plan := ⟨users, du⟩ } [])
        (strUpper (strReplaceDot name) ++ "_USER") ≠ none
        ↔ ∃ u ∈ users, u.username = du) := by
  have hres : computeEnvVars
      { name := name, internalIP := ip, plan := ⟨users, du⟩ } ([] : EnvV)
      = (if (users.foldl (envUserStep (strUpper (strReplaceDot name)) du)
              ([], setKey [] (strUpper (strReplaceDot name) ++ "_HOST") ip)).1.length > 0
         then setKey
            (users.foldl (envUserStep (strUpper (strReplaceDot name)) du)
              ([], setKey [] (strUpper (strReplaceDot name) ++ "_HOST") ip)).2
            (strUpper (strReplaceDot name) ++ "_USERS")
            (String.intercalate " "
              (users.foldl (envUserStep (strUpper (strReplaceDot name)) du)
                ([], setKey [] (strUpper (strReplaceDot name) ++ "_HOST") ip)).1)
         else (users.foldl (envUserStep (strUpper (strReplaceDot name)) du)
              ([], setKey [] (strUpper (strReplaceDot name) ++ "_HOST") ip)).2) := rfl
  have huser : lookupEnv (computeEnvVars
      { name := name, internalIP := ip, plan := ⟨users, du⟩ } [])
      (strUpper (strReplaceDot name) ++ "_USER")
      = ((users.filter (fun x => x.username == du)).getLast?).map
          (fun u => u.username) := by
    rw [hres]
    by_cases husers : users = []
    · subst husers
      simp only [List.foldl_nil, List.length_nil, gt_iff_lt, Nat.lt_irrefl,
        if_false, List.filter_nil, List.getLast?_nil, Option.map_none']
      rw [lookup_setKey_ne _ _ _ _ (suffix_ne (by decide))]
      rfl
    · have hlen : (users.foldl (envUserStep (strUpper (strReplaceDot name)) du)
          ([], setKey [] (strUpper (strReplaceDot name) ++ "_HOST") ip)).1.length > 0 := by
        rw [envFold_fst, List.nil_append, List.length_map]
        exact List.length_pos.mpr husers
      rw [if_pos hlen, lookup_setKey_ne _ _ _ _ (suffix_ne (by decide)),
        envFold_lookup_user]
      cases hgl : (users.filter (fun x => x.username == du)).getLast? with
      | none =>
        rw [lookup_setKey_ne _ _ _ _ (suffix_ne (by decide))]
        rfl
      | some w => rfl
  have hpass : lookupEnv (computeEnvVars
      { name := name, internalIP := ip, plan := ⟨users, du⟩ } [])
      (strUpper (strReplaceDot name) ++ "_PASS")
      = ((users.filter (fun x => x.username == du)).getLast?).map
          (fun u => u.password) := by
    rw [hres]
    by_cases husers : users = []
    · subst husers
      simp only [List.foldl_nil, List.length_nil, gt_iff_lt, Nat.lt_irrefl,
        if_false, List.filter_nil, List.getLast?_nil, Option.map_none']
      rw [lookup_setKey_ne _ _ _ _ (suffix_ne (by decide))]
      rfl
    · have hlen : (users.foldl (envUserStep (strUpper (strReplaceDot name)) du)
          ([], setKey [] (strUpper (strReplaceDot name) ++ "_HOST") ip)).1.length > 0 := by
        rw [envFold_fst, List.nil_append, List.length_map]
        exact List.length_pos.mpr husers
      rw [if_pos hlen, lookup_setKey_ne _ _ _ _ (suffix_ne (by decide)),
        envFold_lookup_pass]
      cases hgl : (users.filter (fun x => x.username == du)).getLast? with
      | none =>
        rw [lookup_setKey_ne _ _ _ _ (suffix_ne (by decide))]
        rfl
      | some w => rfl
  refine ⟨huser, hpass, ?_⟩
  rw [huser]
  constructor
  · intro hne
    have hfil : users.filter (fun x => x.username == du) ≠ [] := by
      intro hc
      rw [hc] at hne
      simp at hne
    obtain ⟨w, hw⟩ := List.exists_mem_of_ne_nil _ hfil
    exact ⟨w, (List.mem_filter.mp hw).1, by simpa using (List.mem_filter.mp hw).2⟩
  · rintro ⟨u, hu, hdu⟩ hc
    have hum : u ∈ users.filter (fun x => x.username == du) :=
      List.mem_filter.mpr ⟨hu, by simp [hdu]⟩
    have hnil : users.filter (fun x => x.username == du) = [] := by
      rcases hgl : (users.filter (fun x => x.username == du)).getLast? with _ | w
      · exact List.getLast?_eq_none_iff.mp hgl
      · rw [hgl] at hc; simp at hc
    rw [hnil] at hum
    simp at hum

/-- Witness for C10 at a concrete plan whose non-empty default user matches
no declared user: neither convenience key is bound. -/
theorem default_user_keys_last_match_witness :
    lookupEnv (computeEnvVars
        { name := "data.db", internalIP := "1.2.3.4",
          plan := ⟨[⟨"dave", "pw"⟩], "carol"⟩ } [])
        (strUpper (strReplaceDot "data.db") ++ "_USER")
      = ((([⟨"dave", "pw"⟩] : List User).filter
          (fun x => x.username == "carol")).getLast?).map (fun u => u.username)
    ∧ lookupEnv (computeEnvVars
        { name := "data.db", internalIP := "1.2.3.4",
          plan := ⟨[⟨"dave", "pw"⟩], "carol"⟩ } [])
        (strUpper (strReplaceDot "data.db") ++ "_PASS")
      = ((([⟨"dave", "pw"⟩] : List User).filter
          (fun x => x.username == "carol")).getLast?).map (fun u => u.password)
    ∧ (lookupEnv (computeEnvVars
        { name := "data.db", internalIP := "1.2.3.4",
          plan := ⟨[⟨"dave", "pw"⟩], "carol"⟩ } [])
        (strUpper (strReplaceDot "data.db") ++ "_USER") ≠ none
        ↔ ∃ u ∈ ([⟨"dave", "pw"⟩] : List User), u.username = "carol") :=
  default_user_keys_last_match "data.db" "1.2.3.4" "carol" [⟨"dave", "pw"⟩]

/-! ## Saga pipeline lemmas -/

set_option maxHeartbeats 1600000 in
/-- Exhaustive case analysis of the post-load pipeline: the failure flag is
set exactly when a step errored; the service record is stored at most once;
if it is stored, every preceding step succeeded and the plan parsed; and the
pipeline itself performs no compensation calls. -/
lemma pipeline_master (w : World) (s1 : ServiceSetup) :
    (pipelineAfterLoad w s1).2.1.fail
        = (if (pipelineAfterLoad w s1).1 = none then s1.fail else true)
    ∧ (pipelineAfterLoad w s1).2.2.countP isPutService ≤ 1
    ∧ ((pipelineAfterLoad w s1).2.2.countP isPutService = 1 →
        exOkB w.imagePull = true ∧ exOkB w.reserveLocal = true
        ∧ exOkB w.reserveGlobal = true ∧ exOkB w.createContainer = true
        ∧ exOkB w.addIP = true ∧ exOkB w.addNat = true
        ∧ ∃ p, w.execPlan = Except.ok p ∧ exOkB (w.parsePlan p) = true)
    ∧ (pipelineAfterLoad w s1).2.2.countP isCleanCall = 0 := by
  cases hip : w.imagePull with
  | error e =>
    simp [pipelineAfterLoad, stepSeq, markFail, downloadImage, hip,
      isPutService, isCleanCall]
  | ok u =>
    cases hrl : w.reserveLocal with
    | error e =>
      simp [pipelineAfterLoad, stepSeq, markFail, downloadImage, reserveIps,
        hip, hrl, isPutService, isCleanCall]
    | ok ipl =>
      cases hrg : w.reserveGlobal with
      | error e =>
        simp [pipelineAfterLoad, stepSeq, markFail, downloadImage, reserveIps,
          hip, hrl, hrg, isPutService, isCleanCall]
      | ok ipg =>
        cases hcc : w.createContainer with
        | error e =>
          simp [pipelineAfterLoad, stepSeq, markFail, downloadImage,
            reserveIps, launchContainer, hip, hrl, hrg, hcc,
            isPutService, isCleanCall]
        | ok cont =>
          cases hai : w.addIP with
          | error e =>
            simp [pipelineAfterLoad, stepSeq, markFail, downloadImage,
              reserveIps, launchContainer, attachNetwork, hip, hrl, hrg, hcc,
              hai, isPutService, isCleanCall]
          | ok u2 =>
            cases han : w.addNat with
            | error e =>
              simp [pipelineAfterLoad, stepSeq, markFail, downloadImage,
                reserveIps, launchContainer, attachNetwork, hip, hrl, hrg,
                hcc, hai, han, isPutService, isCleanCall]
            | ok u3 =>
              cases hex : w.execPlan with
              | error e =>
                simp [pipelineAfterLoad, stepSeq, markFail, downloadImage,
                  reserveIps, launchContainer, attachNetwork, planService,
                  hip, hrl, hrg, hcc, hai, han, hex, isPutService, isCleanCall]
              | ok p =>
                cases hpp : w.parsePlan p with
                | error e =>
                  simp [pipelineAfterLoad, stepSeq, markFail, downloadImage,
                    reserveIps, launchContainer, attachNetwork, planService,
                    persistService, hip, hrl, hrg, hcc, hai, han, hex, hpp,
                    isPutService, isCleanCall]
                | ok pd =>
                  cases hps : w.putService with
                  | error e =>
                    simp [pipelineAfterLoad, stepSeq, markFail, downloadImage,
                      reserveIps, launchContainer, attachNetwork, planService,
                      persistService, addEnvVarsStep, hip, hrl, hrg, hcc, hai,
                      han, hex, hpp, hps, isPutService, isCleanCall, exOkB]
                  | ok u4 =>
                    cases hpe : w.putEnv with
                    | error e =>
                      simp [pipelineAfterLoad, stepSeq, markFail,
                        downloadImage, reserveIps, launchContainer,
                        attachNetwork, planService, persistService,
                        addEnvVarsStep, hip, hrl, hrg, hcc, hai, han, hex,
                        hpp, hps, hpe, isPutService, isCleanCall, exOkB]
                    | ok u5 =>
                      simp [pipelineAfterLoad, stepSeq, markFail,
                        downloadImage, reserveIps, launchContainer,
                        attachNetwork, planService, persistService,
                        addEnvVarsStep, hip, hrl, hrg, hcc, hai, han, hex,
                        hpp, hps, hpe, isPutService, isCleanCall, exOkB]

/-- The same bookkeeping lifted to the full body (load included). -/
lemma processBody_master (w : World) (s : ServiceSetup) :
    (processBody w s).2.1.fail
        = (if (processBody w s).1 = none then s.fail else true)
    ∧ (processBody w s).2.2.countP isPutService ≤ 1
    ∧ ((processBody w s).2.2.countP isPutService = 1 →
        exOkB w.imagePull = true ∧ exOkB w.reserveLocal = true
        ∧ exOkB w.reserveGlobal = true ∧ exOkB w.createContainer = true
        ∧ exOkB w.addIP = true ∧ exOkB w.addNat = true
        ∧ ∃ p, w.execPlan = Except.ok p ∧ exOkB (w.parsePlan p) = true)
    ∧ (processBody w s).2.2.countP isCleanCall = 0 := by
  unfold processBody
  simp only [markFail, loadService]
  split <;> split
  · simp_all
  · obtain ⟨h1, h2, h3, h4⟩ := pipeline_master w _
    refine ⟨?_, ?_, ?_, ?_⟩
    · simpa using h1
    · simpa [List.countP_cons, isPutService] using h2
    · intro hc
      exact h3 (by simpa [List.countP_cons, isPutService] using hc)
    · simpa [List.countP_cons, isCleanCall] using h4
  · simp [isPutService, isCleanCall]
  · obtain ⟨h1, h2, h3, h4⟩ := pipeline_master w _
    refine ⟨?_, ?_, ?_, ?_⟩
    · simpa using h1
    · simpa [List.countP_cons, isPutService] using h2
    · intro hc
      exact h3 (by simpa [List.countP_cons, isPutService] using hc)
    · simpa [List.countP_cons, isCleanCall] using h4

lemma Process_ret (w : World) (s : ServiceSetup) :
    (Process w s).ret = (processBody w s).1 := rfl

lemma Process_cleanErr (w : World) (s : ServiceSetup) :
    (Process w s).cleanErr = (cleanRun w (processBody w s).2.1).1 := rfl

lemma Process_trace (w : World) (s : ServiceSetup) :
    (Process w s).trace
      = (processBody w s).2.2
        ++ ((cleanRun w (processBody w s).2.1).2).map Call.clean := rfl

lemma countP_psrv_map_clean (l : List CleanAction) :
    (l.map Call.clean).countP isPutService = 0 := by
  induction l with
  | nil => rfl
  | cons a l ih => simp [List.countP_cons, isPutService, ih]

/-- If every registered compensation succeeds, the clean loop runs all of
them in order and reports no error. -/
lemma runCleanList_all_ok (w : World) (l : List CleanAction)
    (h : ∀ a ∈ l, w.runClean a = none) :
    runCleanList w l = (none, l) := by
  induction l with
  | nil => rfl
  | cons a l ih =>
    have ha : w.runClean a = none := h a (List.mem_cons_self a l)
    simp only [runCleanList, ha]
    rw [ih (fun b hb => h b (List.mem_cons_of_mem a hb))]

/-- If the compensations before `a` succeed and `a` fails, the clean loop
executes exactly the prefix up to and including `a`, in order, and returns
the failing compensation's error. -/
lemma runCleanList_stops (w : World) (pre : List CleanAction)
    (a : CleanAction) (post : List CleanAction) (ce : GoErr)
    (hpre : ∀ b ∈ pre, w.runClean b = none) (ha : w.runClean a = some ce) :
    runCleanList w (pre ++ a :: post) = (some ce, pre ++ [a]) := by
  induction pre with
  | nil => simp [runCleanList, ha]
  | cons b pre ih =>
    have hb : w.runClean b = none := hpre b (List.mem_cons_self b pre)
    simp only [List.cons_append, runCleanList, hb]
    simp [ih (fun x hx => hpre x (List.mem_cons_of_mem b hx))]

/-- C9: the load step never aborts the saga.  `loadService` returns no error
for every world — a store miss or store error (`dataGetService = none`, the
`data.Get` result being deliberately ignored) and a record with an empty
state are both treated as a fresh record in state `"initialized"`, while a
non-empty stored state is kept as-is. -/
theorem loadService_never_fails (w : World) (c : ProcessControl) :
    (loadService w (initialSetup c)).1 = none
    ∧ (w.dataGetService = none →
        ((loadService w (initialSetup c)).2.1.service).state = "initialized")
    ∧ (∀ svc, w.dataGetService = some svc →
        ((loadService w (initialSetup c)).2.1.service).state
          = (if svc.state = "" then "initialized" else svc.state)) := by
  refine ⟨rfl, ?_, ?_⟩
  · intro h
    simp [loadService, initialSetup, h]
  · intro svc h
    by_cases hs : svc.state = ""
    · simp [loadService, initialSetup, h, hs]
    · simp [loadService, initialSetup, h, hs]

/-- Witness for C9 at a concrete world with a store miss. -/
theorem loadService_never_fails_witness :
    (loadService wOk (initialSetup ctrl0)).1 = none
    ∧ wOk.dataGetService = none
    ∧ ((loadService wOk (initialSetup ctrl0)).2.1.service).state
        = "initialized" :=
  ⟨(loadService_never_fails wOk ctrl0).1, rfl,
   (loadService_never_fails wOk ctrl0).2.1 rfl⟩

/-- C7: constructing the saga with request metadata missing `name` or
missing `image` fails with the validation error before any side effect (the
constructor's call trace is empty — it performs no pool reservation and no
external call); when both are present and `label` is absent, `label`
defaults to `name`. -/
theorem serviceSetupFunc_validation (c : ProcessControl) :
    ((metaGet c "name" = "" ∨ metaGet c "image" = "") →
        serviceSetupFunc c = (.error "missing image or name", []))
    ∧ (metaGet c "name" ≠ "" → metaGet c "image" ≠ "" →
        metaGet c "label" = "" →
        ∃ s, (serviceSetupFunc c).1 = .ok s
          ∧ metaGet s.control "label" = metaGet c "name"
          ∧ (serviceSetupFunc c).2 = []) := by
  constructor
  · intro h
    simp only [serviceSetupFunc, if_pos h]
  · intro h1 h2 h3
    have hcond : ¬ (metaGet c "name" = "" ∨ metaGet c "image" = "") := by
      rintro (h | h)
      · exact h1 h
      · exact h2 h
    refine ⟨{ control := metaSet c "label" (metaGet c "name"),
              cleanFuncs := [] }, ?_, ?_, ?_⟩
    · simp only [serviceSetupFunc, if_neg hcond, if_pos h3]
    · simp [metaGet, metaSet, lookup_setKey_self]
    · simp only [serviceSetupFunc, if_neg hcond]

/-- Witness for C7: an empty request is rejected; `ctrl0` (no label) gets
`label = name`. -/
theorem serviceSetupFunc_validation_witness :
    serviceSetupFunc ⟨[]⟩ = (.error "missing image or name", [])
    ∧ ∃ s, (serviceSetupFunc ctrl0).1 = .ok s
        ∧ metaGet s.control "label" = metaGet ctrl0 "name"
        ∧ (serviceSetupFunc ctrl0).2 = [] :=
  ⟨(serviceSetupFunc_validation ⟨[]⟩).1 (Or.inl rfl),
   (serviceSetupFunc_validation ctrl0).2 (by decide) (by decide) (by decide)⟩

/-- C3: when the loaded service record's state is past `"initialized"`
(non-empty and different from `"initialized"`), `Process` returns success
immediately and its whole external-call trace is the single store read of
the record — no image pull, no IP reservation, no container creation, no
network attachment, no in-container exec and no store write occur. -/
theorem resume_skips_all_steps (w : World) (c : ProcessControl)
    (svc : Service) (h1 : w.dataGetService = some svc) (h2 : svc.state ≠ "")
    (h3 : svc.state ≠ "initialized") :
    (Process w (initialSetup c)).ret = none
    ∧ (Process w (initialSetup c)).trace
        = [Call.dataGet w.appName (metaGet c "name")] := by
  constructor
  · rw [Process_ret]
    simp [processBody, markFail, loadService, initialSetup, h1, if_neg h2, h3]
  · rw [Process_trace]
    simp [processBody, markFail, loadService, cleanRun, initialSetup, h1,
      if_neg h2, h3]

/-- Witness for C3 at `wDone`, whose stored record is in state
`"planned"`. -/
theorem resume_skips_all_steps_witness :
    (Process wDone (initialSetup ctrl0)).ret = none
    ∧ (Process wDone (initialSetup ctrl0)).trace
        = [Call.dataGet wDone.appName (metaGet ctrl0 "name")] :=
  resume_skips_all_steps wDone ctrl0 { state := "planned" } rfl
    (by decide) (by decide)

/-- Counterexample to C1 as stated: in `wCompFail` the global IP reservation
fails with `"globboom"` and the subsequently executed local-address
compensation itself fails with `"compboom"`, yet `Process` does not return
the compensation error — Go's `defer self.clean()` discards `clean`'s return
value (the method's return value is unnamed), so the caller sees only the
original step error. -/
theorem compensation_error_swallowed_counterexample :
    (Process wCompFail (initialSetup ctrl0)).cleanErr = some "compboom"
    ∧ (Process wCompFail (initialSetup ctrl0)).ret = some "globboom"
    ∧ ¬ (Process wCompFail (initialSetup ctrl0)).ret = some "compboom" := by
  refine ⟨rfl, rfl, by decide⟩

/-- C1 as amended: if a saga step fails and a subsequently executed
compensating action itself errors, cleanup aborts at that action, but
`Process` still returns the original step error; the compensation error is
discarded (visible only as the deferred `clean()`'s dropped return value),
so the caller cannot distinguish a clean rollback from an incomplete one. -/
theorem step_error_returned_compensation_error_discarded
    (w : World) (c : ProcessControl) (e : GoErr) (pre : List CleanAction)
    (a : CleanAction) (post : List CleanAction) (ce : GoErr)
    (h : (processBody w (initialSetup c)).1 = some e)
    (hcf : (processBody w (initialSetup c)).2.1.cleanFuncs = pre ++ a :: post)
    (hpre : ∀ b ∈ pre, w.runClean b = none) (ha : w.runClean a = some ce) :
    (Process w (initialSetup c)).ret = some e
    ∧ (Process w (initialSetup c)).cleanErr = some ce := by
  have hfail : (processBody w (initialSetup c)).2.1.fail = true := by
    have hm := (processBody_master w (initialSetup c)).1
    rw [h] at hm
    simpa using hm
  constructor
  · rw [Process_ret, h]
  · rw [Process_cleanErr]
    unfold cleanRun
    rw [hfail, hcf]
    simp only [if_true]
    rw [runCleanList_stops w pre a post ce hpre ha]

/-- Witness for the amended C1, at `wCompFail`. -/
theorem step_error_returned_compensation_error_discarded_witness :
    (Process wCompFail (initialSetup ctrl0)).ret = some "globboom"
    ∧ (Process wCompFail (initialSetup ctrl0)).cleanErr = some "compboom" :=
  step_error_returned_compensation_error_discarded wCompFail ctrl0 "globboom"
    [] (CleanAction.returnIP "192.168.0.2") [] "compboom"
    (by decide) (by decide) (by decide) (by decide)

/-- C2: on a successful run no compensating action is executed (the trace is
the bare step trace, with zero compensation calls); when a step failed, the
cleanup pass executes every compensating action that was pushed, in the
order they were pushed (registration order, not reverse) when they all
succeed, and stops right after the first failing compensation otherwise. -/
theorem compensation_forward_order (w : World) (c : ProcessControl) :
    ((processBody w (initialSetup c)).1 = none →
        (Process w (initialSetup c)).trace
          = (processBody w (initialSetup c)).2.2
        ∧ (Process w (initialSetup c)).trace.countP isCleanCall = 0)
    ∧ (∀ e, (processBody w (initialSetup c)).1 = some e →
        (∀ a ∈ (processBody w (initialSetup c)).2.1.cleanFuncs,
          w.runClean a = none) →
        (Process w (initialSetup c)).trace
          = (processBody w (initialSetup c)).2.2
            ++ ((processBody w (initialSetup c)).2.1.cleanFuncs).map Call.clean)
    ∧ (∀ e pre a post ce, (processBody w (initialSetup c)).1 = some e →
        (processBody w (initialSetup c)).2.1.cleanFuncs = pre ++ a :: post →
        (∀ b ∈ pre, w.runClean b = none) → w.runClean a = some ce →
        (Process w (initialSetup c)).trace
          = (processBody w (initialSetup c)).2.2
            ++ (pre ++ [a]).map Call.clean) := by
  obtain ⟨hm1, _, _, hm4⟩ := processBody_master w (initialSetup c)
  refine ⟨?_, ?_, ?_⟩
  · intro h
    rw [h] at hm1
    have hfail : (processBody w (initialSetup c)).2.1.fail = false := by
      simpa [initialSetup] using hm1
    have hclean : cleanRun w (processBody w (initialSetup c)).2.1 = (none, []) := by
      unfold cleanRun
      rw [hfail]
      simp
    constructor
    · rw [Process_trace, hclean]
      simp
    · rw [Process_trace, hclean]
      simpa using hm4
  · intro e h hall
    have hfail : (processBody w (initialSetup c)).2.1.fail = true := by
      rw [h] at hm1
      simpa using hm1
    have hclean : cleanRun w (processBody w (initialSetup c)).2.1
        = (none, (processBody w (initialSetup c)).2.1.cleanFuncs) := by
      unfold cleanRun
      rw [hfail]
      simp only [if_true]
      exact runCleanList_all_ok w _ hall
    rw [Process_trace, hclean]
  · intro e pre a post ce h hcf hpre ha
    have hfail : (processBody w (initialSetup c)).2.1.fail = true := by
      rw [h] at hm1
      simpa using hm1
    have hclean : cleanRun w (processBody w (initialSetup c)).2.1
        = (some ce, pre ++ [a]) := by
      unfold cleanRun
      rw [hfail, hcf]
      simp only [if_true]
      exact runCleanList_stops w pre a post ce hpre ha
    rw [Process_trace, hclean]

/-- Witness for C2: a clean run executes no compensation; at `wNatFail` all
four pushed compensations run in push order; at `wNatFailCompStops` cleanup
stops right after the failing container-remove compensation. -/
theorem compensation_forward_order_witness :
    (Process wOk (initialSetup ctrl0)).trace.countP isCleanCall = 0
    ∧ (Process wNatFail (initialSetup ctrl0)).trace
        = (processBody wNatFail (initialSetup ctrl0)).2.2
          ++ ((processBody wNatFail (initialSetup ctrl0)).2.1.cleanFuncs).map
              Call.clean
    ∧ (Process wNatFailCompStops (initialSetup ctrl0)).trace
        = (processBody wNatFailCompStops (initialSetup ctrl0)).2.2
          ++ ([CleanAction.returnIP "192.168.0.2",
               CleanAction.returnIP "10.0.0.2"]
              ++ [CleanAction.containerRemove "cid1"]).map Call.clean :=
  ⟨((compensation_forward_order wOk ctrl0).1 (by decide)).2,
   (compensation_forward_order wNatFail ctrl0).2.1 "natboom"
     (by decide) (by decide),
   (compensation_forward_order wNatFailCompStops ctrl0).2.2 "natboom"
     [CleanAction.returnIP "192.168.0.2", CleanAction.returnIP "10.0.0.2"]
     (CleanAction.containerRemove "cid1")
     [CleanAction.removeIP "10.0.0.2"] "rmboom"
     (by decide) (by decide) (by decide) (by decide)⟩

/-- C4: in `reserveIps`, a successful local acquisition immediately pushes
its return-compensation before the global acquisition is attempted: if
`ReserveGlobal` then fails, the step returns that error with the local
address's `ReturnIP` compensation already registered (and only that one),
and at saga level that compensation is among the clean calls actually
executed during cleanup. -/
theorem reserve_compensation_registration (w : World) (c : ProcessControl)
    (s : ServiceSetup) (ipl : IP) (e : GoErr) :
    (w.reserveLocal = .ok ipl → w.reserveGlobal = .error e →
      reserveIps w s
        = (some e,
           { s with localIP := ipl,
                    cleanFuncs := s.cleanFuncs ++ [CleanAction.returnIP ipl] },
           [Call.reserveLocal, Call.reserveGlobal]))
    ∧ (w.dataGetService = none → w.imagePull = .ok () →
        w.reserveLocal = .ok ipl → w.reserveGlobal = .error e →
        Call.clean (CleanAction.returnIP ipl)
          ∈ (Process w (initialSetup c)).trace) := by
  constructor
  · intro h1 h2
    simp [reserveIps, h1, h2]
  · intro hload himg h1 h2
    cases hrc : w.runClean (CleanAction.returnIP ipl) with
    | none =>
      simp [Process, processBody, pipelineAfterLoad, stepSeq, markFail,
        loadService, downloadImage, reserveIps, cleanRun, runCleanList,
        initialSetup, hload, himg, h1, h2, hrc]
    | some ce =>
      simp [Process, processBody, pipelineAfterLoad, stepSeq, markFail,
        loadService, downloadImage, reserveIps, cleanRun, runCleanList,
        initialSetup, hload, himg, h1, h2, hrc]

/-- Witness for C4 at `wGlobFail`. -/
theorem reserve_compensation_registration_witness :
    reserveIps wGlobFail (initialSetup ctrl0)
      = (some "globboom",
         { initialSetup ctrl0 with
             localIP := "192.168.0.2",
             cleanFuncs := [CleanAction.returnIP "192.168.0.2"] },
         [Call.reserveLocal, Call.reserveGlobal])
    ∧ Call.clean (CleanAction.returnIP "192.168.0.2")
        ∈ (Process wGlobFail (initialSetup ctrl0)).trace := by
  have h := reserve_compensation_registration wGlobFail ctrl0
    (initialSetup ctrl0) "192.168.0.2" "globboom"
  exact ⟨h.1 rfl rfl, h.2 rfl rfl rfl rfl⟩

/-- C5: the Service record reaches the store at most once per run; if it was
written at all, then the image pull, both IP reservations, the container
creation, both network attachments and the in-container plan exec all
succeeded and the plan output parsed; and a plan parse failure (with every
preceding step succeeding) fails the saga with the stage-identifying
`persistService:` prefix while the Service record is never written. -/
theorem service_record_persisted_once (w : World) (c : ProcessControl) :
    ((Process w (initialSetup c)).trace.countP isPutService ≤ 1)
    ∧ ((Process w (initialSetup c)).trace.countP isPutService = 1 →
        exOkB w.imagePull = true ∧ exOkB w.reserveLocal = true
        ∧ exOkB w.reserveGlobal = true ∧ exOkB w.createContainer = true
        ∧ exOkB w.addIP = true ∧ exOkB w.addNat = true
        ∧ ∃ p, w.execPlan = Except.ok p ∧ exOkB (w.parsePlan p) = true)
    ∧ (∀ ipl ipg cont p pe, w.dataGetService = none →
        w.imagePull = .ok () → w.reserveLocal = .ok ipl →
        w.reserveGlobal = .ok ipg → w.createContainer = .ok cont →
        w.addIP = .ok () → w.addNat = .ok () →
        w.execPlan = Except.ok p → w.parsePlan p = .error pe →
        (Process w (initialSetup c)).ret = some ("persistService:" ++ pe)
        ∧ (Process w (initialSetup c)).trace.countP isPutService = 0) := by
  obtain ⟨_, hm2, hm3, _⟩ := processBody_master w (initialSetup c)
  have htr : (Process w (initialSetup c)).trace.countP isPutService
      = (processBody w (initialSetup c)).2.2.countP isPutService := by
    rw [Process_trace, List.countP_append, countP_psrv_map_clean]
    omega
  refine ⟨?_, ?_, ?_⟩
  · rw [htr]
    exact hm2
  · intro hc
    rw [htr] at hc
    exact hm3 hc
  · intro ipl ipg cont p pe hload himg hrl hrg hcc hai han hex hpp
    constructor
    · rw [Process_ret]
      simp [processBody, pipelineAfterLoad, stepSeq, markFail, loadService,
        downloadImage, reserveIps, launchContainer, attachNetwork,
        planService, persistService, initialSetup, hload, himg, hrl, hrg,
        hcc, hai, han, hex, hpp]
    · rw [htr]
      simp [processBody, pipelineAfterLoad, stepSeq, markFail, loadService,
        downloadImage, reserveIps, launchContainer, attachNetwork,
        planService, persistService, initialSetup, hload, himg, hrl, hrg,
        hcc, hai, han, hex, hpp, isPutService]

/-- Witness for C5: the all-success world writes once; the parse-failure
world fails with the stage prefix and never writes the record. -/
theorem service_record_persisted_once_witness :
    (Process wOk (initialSetup ctrl0)).trace.countP isPutService ≤ 1
    ∧ (Process wParseFail (initialSetup ctrl0)).ret
        = some ("persistService:" ++ "invalid json")
    ∧ (Process wParseFail (initialSetup ctrl0)).trace.countP isPutService
        = 0 := by
  have h2 := (service_record_persisted_once wParseFail ctrl0).2.2
    "192.168.0.2" "10.0.0.2" ⟨"cid1"⟩ "planjson" "invalid json"
    rfl rfl rfl rfl rfl rfl rfl rfl rfl
  exact ⟨(service_record_persisted_once wOk ctrl0).1, h2.1, h2.2⟩

/-! ## Pool lemmas -/

lemma filter_ne_length (held : List (Addr × Nat)) (a : Addr)
    (hnd : (held.map Prod.fst).Nodup) (hmem : a ∈ held.map Prod.fst) :
    (held.filter (fun q => q.1 != a)).length + 1 = held.length := by
  induction held with
  | nil => simp at hmem
  | cons q held ih =>
    rw [List.map_cons, List.nodup_cons] at hnd
    by_cases hq : q.1 = a
    · have hrest : held.filter (fun q => q.1 != a) = held := by
        apply List.filter_eq_self.mpr
        intro x hx
        have hxne : x.1 ≠ a := by
          intro he
          have hx1 : x.1 ∈ List.map Prod.fst held :=
            List.mem_map_of_mem Prod.fst hx
          rw [he, ← hq] at hx1
          exact hnd.1 hx1
        simpa using hxne
      have hqbne : (q.1 != a) = false := by simpa using hq
      rw [List.filter_cons, hqbne]
      simp only [Bool.false_eq_true, if_false, hrest, List.length_cons]
    · have hmem2 : a ∈ held.map Prod.fst := by
        rw [List.map_cons] at hmem
        rcases List.mem_cons.mp hmem with h | h
        · exact absurd h.symm hq
        · exact h
      have hih := ih hnd.2 hmem2
      have hbne : (q.1 != a) = true := by simpa using hq
      rw [List.filter_cons, if_pos hbne]
      simp only [List.length_cons]
      omega

lemma reserve_preserves (p : Pool) (hw : poolWf p) (hid : Nat) (a : Addr)
    (p2 : Pool) (h : reserveAddr p hid = .ok (a, p2)) :
    poolWf p2 ∧ poolSize p2 = poolSize p := by
  obtain ⟨hf1, hf2, hf3⟩ := hw
  unfold reserveAddr at h
  cases hf : p.free with
  | nil => rw [hf] at h; exact absurd h (by simp)
  | cons x rest =>
    rw [hf] at h
    simp only [Except.ok.injEq, Prod.mk.injEq] at h
    obtain ⟨hxa, hp2⟩ := h
    have hax : a = x := hxa.symm
    subst hax
    rw [hf] at hf1
    have hamem : a ∈ p.free := by rw [hf]; exact List.mem_cons_self a rest
    have hanotheld : a ∉ p.held.map Prod.fst := hf3 a hamem
    subst hp2
    refine ⟨⟨?_, ?_, ?_⟩, ?_⟩
    · exact (List.nodup_cons.mp hf1).2
    · rw [List.map_append, List.nodup_append]
      refine ⟨hf2, by simp, ?_⟩
      intro y hy hya
      have hye : y = a := by simpa using hya
      exact hanotheld (hye ▸ hy)
    · intro y hy
      have hyrest : y ∈ rest := hy
      have hyfree : y ∈ p.free := by
        rw [hf]; exact List.mem_cons_of_mem a hyrest
      have hynot : y ∉ p.held.map Prod.fst := hf3 y hyfree
      have hyna : y ≠ a := by
        intro he
        exact (List.nodup_cons.mp hf1).1 (he ▸ hyrest)
      rw [List.map_append]
      intro hcon
      rcases List.mem_append.mp hcon with hcon | hcon
      · exact hynot hcon
      · exact hyna (by simpa using hcon)
    · unfold poolSize
      rw [hf]
      simp only [List.length_cons, List.length_append, List.length_cons,
        List.length_nil]
      omega

lemma return_preserves (p : Pool) (hw : poolWf p) (a : Addr) (p2 : Pool)
    (h : returnAddr p a = .ok p2) :
    poolWf p2 ∧ poolSize p2 = poolSize p := by
  obtain ⟨hf1, hf2, hf3⟩ := hw
  unfold returnAddr at h
  by_cases hmem : a ∈ p.held.map Prod.fst
  · rw [if_pos hmem] at h
    simp only [Except.ok.injEq] at h
    subst h
    have hsub : List.Sublist
        ((p.held.filter (fun q => q.1 != a)).map Prod.fst)
        (p.held.map Prod.fst) :=
      List.Sublist.map Prod.fst (List.filter_sublist p.held)
    refine ⟨⟨?_, ?_, ?_⟩, ?_⟩
    · rw [List.nodup_cons]
      exact ⟨fun hc => hf3 a hc hmem, hf1⟩
    · exact List.Nodup.sublist hsub hf2
    · intro y hy
      rcases List.mem_cons.mp hy with hya | hyf
      · subst hya
        intro hcon
        obtain ⟨q, hqf, hq1⟩ := List.mem_map.mp hcon
        have hqa := (List.mem_filter.mp hqf).2
        rw [hq1] at hqa
        simp at hqa
      · intro hcon
        exact hf3 y hyf (hsub.subset hcon)
    · unfold poolSize
      have hfl := filter_ne_length p.held a hf2 hmem
      simp only [List.length_cons]
      omega
  · rw [if_neg hmem] at h
    exact absurd h (by simp)

/-- C8: the pool invariant under arbitrary interleavings.  Modelled from the
spec (`util/ip_control` is not among the sources): reservation is an atomic
take-one-free-slot, so a concurrent execution is an arbitrary sequence of
atomic reserve/return operations by arbitrary holders.  Starting from any
well-formed pool: the pool stays well-formed, no address is ever held by two
holders at once (the held-address list stays duplicate-free), the total slot
count is conserved, and whenever all N slots are held the next reservation —
the (N+1)-th concurrent holder — fails with ResourceExhaustion. -/
theorem pool_exclusive_exhaustion (ops : List PoolOp) (p0 : Pool)
    (h : poolWf p0) :
    poolWf (runOps p0 ops)
    ∧ ((runOps p0 ops).held.map Prod.fst).Nodup
    ∧ poolSize (runOps p0 ops) = poolSize p0
    ∧ ((runOps p0 ops).held.length = poolSize p0 →
        ∀ hid, reserveAddr (runOps p0 ops) hid
          = .error "ResourceExhaustion") := by
  induction ops generalizing p0 with
  | nil =>
    refine ⟨h, h.2.1, rfl, ?_⟩
    intro hlen hid
    have hfree : (runOps p0 []).free = [] := by
      apply List.length_eq_zero.mp
      have : poolSize p0 = p0.free.length + p0.held.length := rfl
      simp only [runOps] at hlen ⊢
      omega
    unfold reserveAddr
    rw [hfree]
  | cons op ops ih =>
    cases op with
    | reserve hid0 =>
      simp only [runOps]
      cases hr : reserveAddr p0 hid0 with
      | ok r =>
        obtain ⟨hw2, hs2⟩ := reserve_preserves p0 h hid0 r.1 r.2 (by rw [hr])
        obtain ⟨a1, a2, a3, a4⟩ := ih r.2 hw2
        exact ⟨a1, a2, a3.trans hs2,
          fun hlen hid => a4 (by rw [hs2]; exact hlen) hid⟩
      | error e => exact ih p0 h
    | ret a =>
      simp only [runOps]
      cases hr : returnAddr p0 a with
      | ok pr =>
        obtain ⟨hw2, hs2⟩ := return_preserves p0 h a pr hr
        obtain ⟨a1, a2, a3, a4⟩ := ih pr hw2
        exact ⟨a1, a2, a3.trans hs2,
          fun hlen hid => a4 (by rw [hs2]; exact hlen) hid⟩
      | error e => exact ih p0 h

/-- Witness for C8: a 2-slot pool, two concurrent reservations, then a third
reservation fails with ResourceExhaustion. -/
theorem pool_exclusive_exhaustion_witness :
    poolWf ⟨[0, 1], []⟩
    ∧ reserveAddr (runOps ⟨[0, 1], []⟩ [PoolOp.reserve 7, PoolOp.reserve 8]) 9
        = .error "ResourceExhaustion" := by
  have hwf : poolWf ⟨[0, 1], []⟩ := by
    unfold poolWf
    decide
  refine ⟨hwf, ?_⟩
  exact (pool_exclusive_exhaustion [PoolOp.reserve 7, PoolOp.reserve 8]
    ⟨[0, 1], []⟩ hwf).2.2.2 (by decide) 9

end NanoboxModel
